import Mathlib

/-!
Verification of the trial-synchronization pipeline of `ax_spectral_optimizator`.

The definitions below are a shallow embedding of the Python source:

* `src/modules/utils.py` — `txt_to_json`, `process_spectra`, `calculate_loss`,
  `calculate_error_spec`, `calculate_error`;
* `src/modules/file_monitor.py` — the watcher handlers (`TxtHandler` etc.);
* `src/experiments/spectral_matching.py` (`real_match`) and
  `src/experiments/maximize_temperature.py` (`real_temp`) — the orchestrating
  trial loops.

Modelling conventions:

* Python strings are `List Char` (ASCII data throughout this pipeline).
* Python `float` quantities of the spectral comparator are modelled as `ℚ`;
  `round` is Python's round-half-to-even, `int(...)` truncates toward zero,
  and the `1e-10` epsilon is the exact rational `1 / 10^10`.
* `np.linalg.norm` returns the square root of the sum of squared differences;
  the embedding returns that sum itself (`√s = v ↔ s = v²` for `0 ≤ v`), so
  every statement about a returned norm is phrased through its square.
* Fallible code returns `Option` / `Except`; file I/O is an oracle
  `ℕ → ReadResult` giving the outcome of each read attempt.
-/

namespace AxSpec

/-! ## Rational helpers: Python `round` and `int` -/

/-- Python `int(x)` on a number: truncation toward zero. -/
def pyTrunc (x : ℚ) : ℤ := if 0 ≤ x then ⌊x⌋ else ⌈x⌉

/-- Python `round(x)` (no digits argument): round half to even. -/
def pyRound (x : ℚ) : ℤ :=
  let f : ℤ := ⌊x⌋
  let r : ℚ := x - f
  if r < 1/2 then f
  else if 1/2 < r then f + 1
  else if f % 2 = 0 then f else f + 1

/-! ## `process_spectra` (src/modules/utils.py lines 2243–2261)

The input spectrum is the list of (wavelength, value) pairs; a Python dict
input is first converted to exactly this list of items (in insertion order)
by the source, so the list is the common representation. -/

/-- The loop of `process_spectra`: `visto` is the set of integer wavelengths
already seen; a point is appended only when its rounded wavelength is new. -/
def process_spectra_aux : List (ℚ × ℚ) → List ℤ → List (ℤ × ℚ)
  | [], _ => []
  | p :: rest, visto =>
    let w : ℤ := pyRound p.1
    if w ∈ visto then process_spectra_aux rest visto
    else (w, p.2) :: process_spectra_aux rest (w :: visto)

/-- `process_spectra`: round each wavelength with Python `int(round(·))` and
drop later points whose rounded wavelength was already seen. -/
def process_spectra (datos_espectro : List (ℚ × ℚ)) : List (ℤ × ℚ) :=
  process_spectra_aux datos_espectro []

/-- Specification-style dedup: keep each entry and delete every later entry
with the same key (first-seen-wins, order preserved). -/
def dedupFirstBy : List (ℤ × ℚ) → List (ℤ × ℚ)
  | [] => []
  | p :: rest => p :: dedupFirstBy (rest.filter (fun q => q.1 ≠ p.1))
termination_by l => l.length
decreasing_by
  simp only [List.length_cons]
  exact Nat.lt_succ_of_le (List.length_filter_le _ _)

/-! ## Python dict semantics

`{...}` comprehensions and literals: inserting an existing key overwrites its
value in place (keeping the first-insertion position); a new key is appended. -/

/-- One Python dict insertion. -/
def pyDictInsert {α β : Type} [DecidableEq α] (d : List (α × β)) (k : α) (v : β) :
    List (α × β) :=
  if d.any (fun p => p.1 = k) then d.map (fun p => if p.1 = k then (k, v) else p)
  else d ++ [(k, v)]

/-- Build a Python dict from a sequence of key/value pairs. -/
def pyDictOfList {α β : Type} [DecidableEq α] (l : List (α × β)) : List (α × β) :=
  l.foldl (fun d p => pyDictInsert d p.1 p.2) []

/-! ## The spectral comparator
(`calculate_loss` lines 1035–1063, `calculate_error_spec` lines 956–984) -/

instance {ε α : Type} [DecidableEq ε] [DecidableEq α] : DecidableEq (Except ε α) :=
  fun a b =>
  match a, b with
  | .error e, .error f => decidable_of_iff (e = f) (by simp)
  | .ok x, .ok y => decidable_of_iff (x = y) (by simp)
  | .error _, .ok _ => isFalse (by simp)
  | .ok _, .error _ => isFalse (by simp)

/-- `np.min` of a nonempty vector. -/
def listMin : List ℚ → ℚ
  | [] => 0
  | x :: xs => xs.foldl min x

/-- `np.max` of a nonempty vector. -/
def listMax : List ℚ → ℚ
  | [] => 0
  | x :: xs => xs.foldl max x

/-- The epsilon `1e-10` added to the normalization denominator in
`calculate_loss` / `calculate_error_spec`. -/
def epsSpec : ℚ := 1 / 10000000000

/-- Normalization denominator of `calculate_error` (line 893): `max - min`,
with no epsilon. -/
def minmaxDenom (l : List ℚ) : ℚ := listMax l - listMin l

/-- Normalization denominator of `calculate_loss` / `calculate_error_spec`
(lines 1057–1058 / 978–979): `max - min + 1e-10`. -/
def minmaxDenomEps (l : List ℚ) : ℚ := listMax l - listMin l + epsSpec

/-- Min–max normalization with the epsilon denominator:
`(obj - np.min(obj)) / (np.max(obj) - np.min(obj) + 1e-10)`. -/
def normalizeEps (l : List ℚ) : List ℚ :=
  l.map (fun x => (x - listMin l) / minmaxDenomEps l)

/-- Sum of squared componentwise differences; `np.linalg.norm` is its square
root. -/
def sumSqDiff (a b : List ℚ) : ℚ :=
  ((a.zip b).map (fun p => (p.1 - p.2) ^ 2)).sum

/-- `target_cleaned` (line 1037/958): keys via `str(int(float(k)))`, built as a
dict comprehension (later duplicates overwrite). Integer keys stand for their
canonical decimal strings (`str ∘ int` is injective, and sorting the strings
by `int(x)` is sorting the integers). -/
def targetCleaned (target_values : List (ℚ × ℚ)) : List (ℤ × ℚ) :=
  pyDictOfList (target_values.map (fun kv => (pyTrunc kv.1, kv.2)))

/-- `current_cleaned` (line 1041/962): `process_spectra` output as a dict. -/
def currentCleaned (current_values : List (ℚ × ℚ)) : List (ℤ × ℚ) :=
  process_spectra current_values

/-- `common_keys` intersection, then `sorted(common_keys, key=int)`
(lines 1044 and 1052 / 965 and 973). -/
def commonKeysSorted (current_values target_values : List (ℚ × ℚ)) : List ℤ :=
  List.insertionSort (fun a b => a ≤ b)
    (((targetCleaned target_values).map (fun p => p.1)).filter
      (fun k => ((currentCleaned current_values).map (fun p => p.1)).contains k))

/-- Dict lookup for the cleaned spectra (keys are unique, default unused). -/
def dictGet (d : List (ℤ × ℚ)) (k : ℤ) : ℚ := ((d.lookup k).getD 0)

/-- `calculate_loss` (lines 1035–1063). Returns `Except.error` for the raised
`ValueError`, else the *square* of the returned `float(loss)`. -/
def calculate_loss (current_values target_values : List (ℚ × ℚ)) :
    Except String ℚ :=
  let target_cleaned := targetCleaned target_values
  let current_cleaned := currentCleaned current_values
  let sorted_keys := commonKeysSorted current_values target_values
  if sorted_keys = [] then
    Except.error "No overlapping wavelengths between spectra."
  else
    let obj1 := sorted_keys.map (dictGet current_cleaned)
    let obj2 := sorted_keys.map (dictGet target_cleaned)
    Except.ok (sumSqDiff (normalizeEps obj1) (normalizeEps obj2))

/-- `calculate_error_spec` (lines 956–984): same computation, but the result
is wrapped as the `"Variable_error"` pair `(loss, 0.0)` (loss squared here). -/
def calculate_error_spec (current_values target_values : List (ℚ × ℚ)) :
    Except String (ℚ × ℚ) :=
  let target_cleaned := targetCleaned target_values
  let current_cleaned := currentCleaned current_values
  let sorted_keys := commonKeysSorted current_values target_values
  if sorted_keys = [] then
    Except.error "No overlapping wavelengths between spectra."
  else
    let obj1 := sorted_keys.map (dictGet current_cleaned)
    let obj2 := sorted_keys.map (dictGet target_cleaned)
    Except.ok (sumSqDiff (normalizeEps obj1) (normalizeEps obj2), 0)

/-- `calculate_error` (lines 886–899), the plain parameter-distance
comparator: keys come from the parameterization; both vectors are min–max
normalized with the bare `max - min` denominator (line 893, no epsilon).
`none` models the paths with no rational result: a missing target key
(`KeyError`), an empty parameterization (`np.min` of an empty array raises),
or a zero denominator (the unguarded division yields no finite value). -/
def calculate_error (parameterization target_values : List (List Char × ℚ)) :
    Option ℚ :=
  if parameterization = [] then none
  else
    let keys := parameterization.map (fun p => p.1)
    if keys.all (fun k => (target_values.lookup k).isSome) then
      let obj1 := parameterization.map (fun p => p.2)
      let obj2 := keys.map (fun k => (target_values.lookup k).getD 0)
      if minmaxDenom obj1 = 0 ∨ minmaxDenom obj2 = 0 then none
      else
        let obj1n := obj1.map (fun x => (x - listMin obj1) / minmaxDenom obj1)
        let obj2n := obj2.map (fun x => (x - listMin obj2) / minmaxDenom obj2)
        some (sumSqDiff obj1n obj2n)
    else none

/-! ## ASCII string primitives (Python `str` operations on `List Char`) -/

/-- ASCII `str.lower` on one character. -/
def asciiLower (c : Char) : Char :=
  if 'A' ≤ c ∧ c ≤ 'Z' then Char.ofNat (c.toNat + 32) else c

/-- Whitespace stripped by `str.strip()`. -/
def isPyWs (c : Char) : Bool := c = ' ' ∨ c = '\t' ∨ c = '\n' ∨ c = '\r'

/-- Python `line.strip()`: drop leading and trailing whitespace. -/
def pyStrip (l : List Char) : List Char :=
  ((l.dropWhile isPyWs).reverse.dropWhile isPyWs).reverse

/-- Python `line.lower().startswith(pre)` for a lowercase `pre`: only the
first `pre.length` characters are inspected. -/
def pyLowerStartsWith (pre l : List Char) : Bool :=
  (l.take pre.length).map asciiLower = pre

/-- Remainder of `l` after the first occurrence of `sep` (`none` when `sep`
does not occur, i.e. `split(sep)` has a single element). -/
def dropAfterFirst (sep : List Char) : List Char → Option (List Char)
  | [] => if sep = [] then some [] else none
  | c :: rest =>
    if sep.isPrefixOf (c :: rest) then some ((c :: rest).drop sep.length)
    else dropAfterFirst sep rest

/-- Prefix of `l` before the first occurrence of `sep`. -/
def takeBeforeFirst (sep : List Char) : List Char → List Char
  | [] => []
  | c :: rest =>
    if sep.isPrefixOf (c :: rest) then []
    else c :: takeBeforeFirst sep rest

/-- Python `line.split(sep)[1]`: the segment strictly between the first and
second occurrence of `sep` (`none` models the `IndexError` when `sep` is
absent). -/
def pySplitGet1 (sep l : List Char) : Option (List Char) :=
  (dropAfterFirst sep l).map (takeBeforeFirst sep)

/-- Does `sep` occur as a contiguous subsequence of `l`? -/
def containsSeq (sep : List Char) : List Char → Bool
  | [] => sep = []
  | c :: rest => sep.isPrefixOf (c :: rest) || containsSeq sep rest

/-! ## Trial-number extraction: `re.search(r"Trial (\d+)", line, re.IGNORECASE)` -/

/-- Attempt the regex match at the head of `cs`: a case-insensitive
`"trial "` followed by at least one digit; the capture group is the maximal
digit run. -/
def trialMatchAt (cs : List Char) : Option (List Char) :=
  if (cs.take 6).map asciiLower = ['t', 'r', 'i', 'a', 'l', ' '] then
    let ds := (cs.drop 6).takeWhile Char.isDigit
    if ds = [] then none else some ds
  else none

/-- `re.search`: try the pattern at every position, leftmost match wins. -/
def findTrialNum : List Char → Option (List Char)
  | [] => none
  | c :: rest =>
    match trialMatchAt (c :: rest) with
    | some ds => some ds
    | none => findTrialNum rest

/-! ## The `eval` of the parameters payload

The source runs Python `eval` on the text after `"Parameters:"`; the artifact
contract (§6 of the spec) makes that text a dict literal
`{'<channel>': <int>, ...}`.  `parsePyDict` is the embedding of `eval` on
such input: it produces the dict (with Python duplicate-key semantics via
`pyDictOfList`) and fails on anything that is not a full dict literal — the
source maps every eval failure, and any non-dict or falsy result, to
`parameters = None` and then to the `(None, None)` return. -/

/-- Skip ASCII whitespace. -/
def skipWs (cs : List Char) : List Char := cs.dropWhile isPyWs

/-- Digit run to a natural number (most significant first). -/
def parseNatDigits (cs : List Char) : ℕ :=
  cs.foldl (fun acc c => acc * 10 + (c.toNat - 48)) 0

/-- Parse a maximal digit run as a natural number, returning the rest. -/
def parseNatTok (cs : List Char) : Option (ℕ × List Char) :=
  if cs.takeWhile Char.isDigit = [] then none
  else some (parseNatDigits (cs.takeWhile Char.isDigit), cs.dropWhile Char.isDigit)

/-- Parse an optionally negated integer literal. -/
def parseIntTok (cs : List Char) : Option (ℤ × List Char) :=
  if cs.head? = some '-' then (parseNatTok cs.tail).map (fun p => (-(p.1 : ℤ), p.2))
  else (parseNatTok cs).map (fun p => ((p.1 : ℤ), p.2))

/-- Parse the entries of a dict literal after the opening `{` (input already
whitespace-skipped). `fuel` bounds the recursion by the entry count.
An entry is `'<key>'` (the key runs to the next quote), whitespace, `:`,
whitespace, an integer literal, then either `, <next entry>` or the closing
`}` followed only by whitespace. -/
def parseEntries : ℕ → List Char → Option (List (List Char × ℤ))
  | 0, _ => none
  | fuel + 1, cs =>
    if cs.head? = some '}' then
      if skipWs cs.tail = [] then some [] else none
    else if cs.head? = some '\'' then
      if (cs.tail.dropWhile (fun c => c ≠ '\'')).head? = some '\'' then
        if (skipWs (cs.tail.dropWhile (fun c => c ≠ '\'')).tail).head? = some ':' then
          match parseIntTok
              (skipWs (skipWs (cs.tail.dropWhile (fun c => c ≠ '\'')).tail).tail) with
          | some (v, r4) =>
            if (skipWs r4).head? = some ',' then
              (parseEntries fuel (skipWs (skipWs r4).tail)).map
                (fun l => (cs.tail.takeWhile (fun c => c ≠ '\''), v) :: l)
            else if (skipWs r4).head? = some '}' then
              if skipWs (skipWs r4).tail = [] then
                some [(cs.tail.takeWhile (fun c => c ≠ '\''), v)]
              else none
            else none
          | none => none
        else none
      else none
    else none

/-- `eval` of a parameters payload expected to be a dict literal. -/
def parsePyDict (cs : List Char) : Option (List (List Char × ℤ)) :=
  if (skipWs cs).head? = some '{' then
    (parseEntries ((skipWs cs).tail.length + 1) (skipWs (skipWs cs).tail)).map
      pyDictOfList
  else none

/-! ## `txt_to_json` line processing (src/modules/utils.py lines 754–820) -/

/-- `re.search(r'\d+', channel)` (line 796): the first maximal digit run. -/
def firstDigitRun : List Char → Option (List Char)
  | [] => none
  | c :: rest =>
    if c.isDigit then some ((c :: rest).takeWhile Char.isDigit)
    else firstDigitRun rest

/-- One converted entry `{"channel": ..., "value": ...}`. -/
structure ChannelValue where
  channel : List Char
  value : ℤ
deriving DecidableEq, Repr

/-- The lowercase `"trial"` prefix of the case-insensitive check. -/
def trialPrefixLower : List Char := ['t', 'r', 'i', 'a', 'l']

/-- The exact `"Parameters:"` separator used by the case-sensitive split. -/
def paramsPrefixExact : List Char :=
  ['P', 'a', 'r', 'a', 'm', 'e', 't', 'e', 'r', 's', ':']

/-- The lowercase `"parameters:"` prefix of the case-insensitive check. -/
def paramsPrefixLower : List Char :=
  ['p', 'a', 'r', 'a', 'm', 'e', 't', 'e', 'r', 's', ':']

/-- The per-line loop (lines 758–784): running state is
`(trial_number, parameters)`. A matching trial line overwrites the trial
number; a `parameters:`-prefixed line overwrites `parameters` with the eval
result, or with `None` when the case-sensitive split or the eval fails. -/
def processLines (lines : List (List Char)) :
    Option (List Char) × Option (List (List Char × ℤ)) :=
  lines.foldl
    (fun st rawLine =>
      let line := pyStrip rawLine
      let st1 :=
        if pyLowerStartsWith trialPrefixLower line then
          match findTrialNum line with
          | some ds => (some ds, st.2)
          | none => st
        else st
      if pyLowerStartsWith paramsPrefixLower line then
        match pySplitGet1 paramsPrefixExact line with
        | none => (st1.1, none)
        | some payload => (st1.1, parsePyDict payload)
      else st1)
    (none, none)

/-- Lines 795–805: build the JSON entries, stripping each channel to its
first digit run; any channel with no digit (`AttributeError`) fails the
whole conversion. -/
def convertParams (ps : List (List Char × ℤ)) : Option (List ChannelValue) :=
  ps.mapM (fun kv => (firstDigitRun kv.1).map (fun ds => ⟨ds, kv.2⟩))

/-- Validation and conversion (lines 786–805) applied to a successfully read,
nonempty `lines`: `None, None` when no trial number or no (truthy) parameters
were found, else the converted record and the trial number. -/
def txt_to_json_core (lines : List (List Char)) :
    Option (List ChannelValue × List Char) :=
  match processLines lines with
  | (some t, some ps) =>
    if ps = [] then none
    else (convertParams ps).map (fun entries => (entries, t))
  | _ => none

/-! ## The `txt_to_json` retry loop (lines 716–820) -/

/-- Outcome of one `open`/`readlines` attempt. -/
inductive ReadResult
  | notFound
  | ioError
  | content (lines : List (List Char))

/-- `MAX_ATTEMPTS = 5` (line 718). -/
def MAX_ATTEMPTS : ℕ := 5

/-- Result of the conversion: the returned value, the number of attempts
performed, and the number of `time.sleep(1)` calls (each retry is preceded by
exactly one 1-second sleep). -/
structure ConvResult where
  value : Option (List ChannelValue × List Char)
  attempts : ℕ
  sleeps : ℕ
deriving DecidableEq, Repr

/-- The `while attempt_count < MAX_ATTEMPTS` loop. `reads k` is the outcome
of the k-th read attempt (1-based); `fuel = MAX_ATTEMPTS - count`.

* `FileNotFoundError` returns `(None, None)` at once (lines 732–734);
* `IOError` sleeps 1 s and retries while attempts remain (lines 735–742);
* an empty read sleeps 1 s and retries while attempts remain (lines 744–752);
* nonempty content goes to line processing and returns its result with no
  further attempt (lines 754–805). -/
def txtToJsonLoop (reads : ℕ → ReadResult) : ℕ → ℕ → ℕ → ConvResult
  | 0, count, sleeps => ⟨none, count, sleeps⟩
  | fuel + 1, count, sleeps =>
    let count' := count + 1
    match reads count' with
    | .notFound => ⟨none, count', sleeps⟩
    | .ioError =>
      if count' < MAX_ATTEMPTS then txtToJsonLoop reads fuel count' (sleeps + 1)
      else ⟨none, count', sleeps⟩
    | .content lines =>
      if lines.isEmpty then
        if count' < MAX_ATTEMPTS then txtToJsonLoop reads fuel count' (sleeps + 1)
        else ⟨none, count', sleeps⟩
      else ⟨txt_to_json_core lines, count', sleeps⟩

/-- `txt_to_json` under the read oracle `reads`. -/
def txt_to_json (reads : ℕ → ReadResult) : ConvResult :=
  txtToJsonLoop reads MAX_ATTEMPTS 0 0

/-- A read condition the converter treats as transient (retries). -/
def retryable : ReadResult → Prop
  | .ioError => True
  | .content lines => lines = []
  | .notFound => False

instance : DecidablePred retryable := fun r => by
  cases r <;> simp [retryable] <;> infer_instance

/-! ## The orchestrating trial loops
(`real_match`, src/experiments/spectral_matching.py lines 125–202;
`real_temp`, src/experiments/maximize_temperature.py lines 150–238)

Both functions run

```
try:
    for trial in range(sobol + NUM_TRIALS_FB):
        ... per-trial steps ...
except Exception as e:
    logger.error(f'Error in Trial {trial_idx+1}: ...')
    pico.turn_off()
```

The `try/except` encloses the whole `for` loop.  The per-trial control flow
relevant here: a falsy return from `pico.configure_from_txt` hits an explicit
`continue` (next trial); any exception raised by a step propagates out of the
`for` into the `except`, which logs the trial index and shuts the lamp off —
and the loop is over.  `TrialOutcome` abstracts one trial's behaviour;
`runLoop` is the loop with trials indexed from `0`. -/

/-- The per-trial steps that can raise (steps 7–14 of the source). -/
inductive Step
  | propose      -- ax.get_next_trial / save_indi_trials
  | convert      -- txt_to_json and the JSON write
  | configure    -- pico.configure_from_txt / pico.set_spectrum
  | measure      -- maya.acquire_spectrum (None -> raise ValueError) / save
  | evaluate     -- load_event_spectra / calculate_error_spec / calculate_loss
  | observe      -- the save_* calls / ax.complete_trial
deriving DecidableEq, Repr

/-- Behaviour of one trial of the loop body. -/
inductive TrialOutcome
  | ok                -- every step succeeds; the trial is observed back to Ax
  | configSkip        -- configure_from_txt returns falsy: `continue`
  | raise (s : Step)  -- step `s` raises an exception
deriving DecidableEq, Repr

/-- Observable result of a run of the loop. -/
structure RunState where
  /-- loop indices of trials completed and observed back to the optimizer -/
  completed : List ℕ
  /-- loop indices skipped by the hardware-configuration `continue` -/
  skipped : List ℕ
  /-- the `logger.error('Error in Trial ...')` record of the except handler:
  the aborting trial's index and failing step, if any -/
  errorLog : Option (ℕ × Step)
  /-- whether the except handler called `pico.turn_off()` (the `finally`
  block turns the lamp off in every case afterwards) -/
  errorShutdown : Bool
deriving DecidableEq, Repr

/-- The `for trial in range(...)` loop starting at index `i` with `n` trials
remaining, inside the single enclosing `try/except`. -/
def runLoop (behavior : ℕ → TrialOutcome) : ℕ → ℕ → RunState
  | _, 0 => ⟨[], [], none, false⟩
  | i, n + 1 =>
    match behavior i with
    | .ok =>
      let r := runLoop behavior (i + 1) n
      ⟨i :: r.completed, r.skipped, r.errorLog, r.errorShutdown⟩
    | .configSkip =>
      let r := runLoop behavior (i + 1) n
      ⟨r.completed, i :: r.skipped, r.errorLog, r.errorShutdown⟩
    | .raise s => ⟨[], [], some (i, s), true⟩

/-- Does a trial outcome raise an exception? -/
def isRaise : TrialOutcome → Bool
  | .raise _ => true
  | _ => false

/-- The trial loop of `real_match` over `numTrials = sobol + NUM_TRIALS_FB`
proposals. -/
def real_match_loop (behavior : ℕ → TrialOutcome) (numTrials : ℕ) : RunState :=
  runLoop behavior 0 numTrials

/-- The trial loop of `real_temp`: structurally identical (same
try-around-for shape, same `continue`, same except handler). -/
def real_temp_loop (behavior : ℕ → TrialOutcome) (numTrials : ℕ) : RunState :=
  runLoop behavior 0 numTrials

/-! ## The Signal (watcher handler) of src/modules/file_monitor.py

`TxtHandler` (lines 24–49) owns a `threading.Event` plus `latest_txt_path`.
The `Event` is modelled by its sticky boolean flag: `set()` makes the flag
true, `clear()` makes it false, `wait()` returns immediately iff the flag is
true (and blocks, not changing any state, otherwise). -/

/-- The handler state: the Event's internal flag and the recorded path. -/
structure Handler where
  flag : Bool
  latestPath : Option (List Char)
deriving DecidableEq, Repr

/-- `TxtHandler.__init__`: cleared event, no path. -/
def Handler.init : Handler := ⟨false, none⟩

/-- Does a path end in `.txt`? -/
def endsWithTxt (p : List Char) : Bool :=
  ['.', 't', 'x', 't'].isSuffixOf p

/-- `TxtHandler.on_created` (lines 29–49): for a non-directory event whose
path ends in `.txt`, record the path and set the event. -/
def on_created (h : Handler) (isDirectory : Bool) (srcPath : List Char) : Handler :=
  if !isDirectory && endsWithTxt srcPath then ⟨true, some srcPath⟩ else h

/-- Operations touching the handler: watcher-side `on_created`, and the
orchestrator's `clear()` and `wait()` (e.g. spectral_matching.py
lines 139–140). -/
inductive EvOp
  | onCreated (isDirectory : Bool) (srcPath : List Char)
  | clear
  | wait
deriving DecidableEq, Repr

/-- State transition of one operation: `wait` never modifies the flag. -/
def stepEv (h : Handler) : EvOp → Handler
  | .onCreated d p => on_created h d p
  | .clear => ⟨false, h.latestPath⟩
  | .wait => h

/-- Run a sequence of operations. -/
def runEv (h : Handler) (ops : List EvOp) : Handler := ops.foldl stepEv h

/-- `wait()` returns immediately iff the flag is set; otherwise the caller
blocks until the next `set()`. -/
def waitImmediate (h : Handler) : Bool := h.flag

/-- Is an operation a `clear()`? -/
def isClearOp : EvOp → Bool
  | .clear => true
  | _ => false

/-- Does an operation set the event (an `on_created` that passes the file
and extension check)? -/
def isSetOp : EvOp → Bool
  | .onCreated d p => !d && endsWithTxt p
  | _ => false

/-! ## Rendering of valid ProposedParams artifacts (spec §6)

A valid artifact is `Trial <digits>` on one line and
`Parameters: {'<channel>': <int>, ...}` on another, where a channel
identifier is a non-numeric prefix (lowercase letters / underscore)
followed by digits. -/

/-- The characters allowed in the non-numeric part of a channel identifier. -/
def goodKeyChar (c : Char) : Bool :=
  c ∈ ['a', 'b', 'c', 'd', 'e', 'f', 'g', 'h', 'i', 'j', 'k', 'l', 'm',
       'n', 'o', 'p', 'q', 'r', 's', 't', 'u', 'v', 'w', 'x', 'y', 'z', '_']

/-- Decimal rendering of a natural number (most significant digit first). -/
def renderNat (n : ℕ) : List Char :=
  if n = 0 then ['0']
  else ((Nat.digits 10 n).map (fun d => Char.ofNat (48 + d))).reverse

/-- Python `repr` of an integer. -/
def renderInt (v : ℤ) : List Char :=
  if v < 0 then '-' :: renderNat v.natAbs else renderNat v.natAbs

/-- One dict-literal entry `'key': value`. -/
def renderEntry (k : List Char) (v : ℤ) : List Char :=
  '\'' :: k ++ '\'' :: ':' :: ' ' :: renderInt v

/-- Comma-separated dict-literal entries. -/
def renderEntries : List (List Char × ℤ) → List Char
  | [] => []
  | e :: rest =>
    renderEntry e.1 e.2 ++
      (match rest with
       | [] => []
       | _ :: _ => ',' :: ' ' :: renderEntries rest)

/-- A Python dict literal `{'k': v, ...}`. -/
def renderDict (ps : List (List Char × ℤ)) : List Char :=
  '{' :: renderEntries ps ++ ['}']

/-- The `Trial <digits>` line. -/
def renderTrialLine (t : List Char) : List Char :=
  'T' :: 'r' :: 'i' :: 'a' :: 'l' :: ' ' :: t

/-- The `Parameters: <dict literal>` line. -/
def renderParamsLine (ps : List (List Char × ℤ)) : List Char :=
  paramsPrefixExact ++ ' ' :: renderDict ps

/-! # Theorems -/

/-! ## C1 — exception handling of the trial loops -/

/-- Behaviour of `runLoop` when trial `i` raises and no earlier trial in the
window raises: the trials before `i` run (completed or config-skipped), the
except handler logs `i` with the failing step and shuts the lamp off, and no
trial after `i` runs. -/
lemma runLoop_raise (behavior : ℕ → TrialOutcome) :
    ∀ (n k i : ℕ) (s : Step), k ≤ i → i < k + n →
      behavior i = .raise s →
      (∀ j, k ≤ j → j < i → isRaise (behavior j) = false) →
      runLoop behavior k n =
        ⟨(List.range' k (i - k)).filter (fun j => behavior j = .ok),
         (List.range' k (i - k)).filter (fun j => behavior j = .configSkip),
         some (i, s), true⟩ := by
  intro n
  induction n with
  | zero => intro k i s hki hik _ _; omega
  | succ n ih =>
    intro k i s hki hik hraise hbefore
    rcases Nat.eq_or_lt_of_le hki with rfl | hlt
    · simp [runLoop, hraise, Nat.sub_self]
    · have hk : isRaise (behavior k) = false := hbefore k le_rfl hlt
      have hrec := ih (k + 1) i s hlt (by omega) hraise
        (fun j hj1 hj2 => hbefore j (by omega) hj2)
      have hrange : List.range' k (i - k) = k :: List.range' (k + 1) (i - (k + 1)) := by
        have : i - k = (i - (k + 1)) + 1 := by omega
        rw [this, List.range'_succ]
      cases hbk : behavior k with
      | ok =>
        simp only [runLoop, hbk, hrec, hrange, List.filter_cons, hbk]
        simp
      | configSkip =>
        simp only [runLoop, hbk, hrec, hrange, List.filter_cons, hbk]
        simp
      | raise s' => rw [hbk] at hk; exact absurd hk (by simp [isRaise])

/-- C1, counterexample: in a two-trial run where trial 0's measurement step
raises, the failure is logged with the trial index and the lamp is shut off,
but the loop does **not** proceed to trial 1 — trial 1 is neither completed
nor skipped, although its own behaviour would have succeeded.  This refutes
the claim that an exception aborts only the failing trial and that the loop
proceeds to the next trial index. -/
theorem C1_counterexample :
    real_match_loop (fun i => if i = 0 then .raise .measure else .ok) 2 =
      ⟨[], [], some (0, .measure), true⟩ ∧
    (fun i => if i = 0 then (TrialOutcome.raise .measure) else .ok) 1 = .ok ∧
    real_temp_loop (fun i => if i = 0 then .raise .measure else .ok) 2 =
      ⟨[], [], some (0, .measure), true⟩ := by
  refine ⟨rfl, rfl, rfl⟩

/-- C1, amended: in `real_match` / `real_temp` the `try/except` encloses the
whole `for` loop, so an exception thrown by any per-trial step terminates the
experiment loop: the failure is logged with the trial index and the failing
step, the hardware is shut down, the trials before the failing one run
normally, and **no later trial is executed**.  Only a falsy
hardware-configuration result (`continue`) skips just one trial and proceeds
to the next; the run therefore ends early both for unrecoverable setup
failures and for any per-trial exception. -/
theorem C1_exception_ends_loop (behavior : ℕ → TrialOutcome) (n i : ℕ) (s : Step)
    (hin : i < n) (hraise : behavior i = .raise s)
    (hbefore : ∀ j, j < i → isRaise (behavior j) = false) :
    real_match_loop behavior n =
      ⟨(List.range i).filter (fun j => behavior j = .ok),
       (List.range i).filter (fun j => behavior j = .configSkip),
       some (i, s), true⟩ ∧
    real_temp_loop behavior n = real_match_loop behavior n := by
  have h := runLoop_raise behavior n 0 i s (Nat.zero_le i) (by omega) hraise
    (fun j _ hj => hbefore j hj)
  have hr : List.range' 0 (i - 0) = List.range i := by
    rw [Nat.sub_zero, List.range_eq_range']
  constructor
  · rw [real_match_loop, h, hr]
  · rfl

/-- Witness for C1's amended theorem at a concrete behaviour: trials 0 (ok)
and 1 (config-skip) run, trial 2's evaluation raises, trial 3 never runs. -/
theorem C1_exception_ends_loop_witness :
    real_match_loop
      (fun i => if i = 0 then .ok else if i = 1 then .configSkip
                else if i = 2 then .raise .evaluate else .ok) 4 =
      ⟨[0], [1], some (2, .evaluate), true⟩ := by
  have h := (C1_exception_ends_loop
    (fun i => if i = 0 then .ok else if i = 1 then .configSkip
              else if i = 2 then .raise .evaluate else .ok)
    4 2 .evaluate (by decide) (by decide)
    (by decide)).1
  rw [h]
  decide

/-! ## C8 — the Signal's sticky flag -/

/-- While no `clear()` runs, a set flag stays set. -/
lemma flag_preserved_no_clear :
    ∀ (more : List EvOp) (h : Handler), h.flag = true →
      (∀ op ∈ more, isClearOp op = false) →
      (runEv h more).flag = true := by
  intro more
  induction more with
  | nil => intro h hf _; exact hf
  | cons op rest ih =>
    intro h hf hops
    have hop : isClearOp op = false := hops op (List.mem_cons_self op rest)
    have hrest : ∀ o ∈ rest, isClearOp o = false :=
      fun o ho => hops o (List.mem_cons_of_mem op ho)
    cases op with
    | onCreated d p =>
      refine ih _ ?_ hrest
      simp only [runEv, stepEv, on_created]
      split <;> simp [hf]
    | clear => simp [isClearOp] at hop
    | wait => exact ih _ hf hrest

/-- While no setting `on_created` runs, a cleared flag stays cleared. -/
lemma flag_stays_false_no_set :
    ∀ (more : List EvOp) (h : Handler), h.flag = false →
      (∀ op ∈ more, isSetOp op = false) →
      (runEv h more).flag = false := by
  intro more
  induction more with
  | nil => intro h hf _; exact hf
  | cons op rest ih =>
    intro h hf hops
    have hop : isSetOp op = false := hops op (List.mem_cons_self op rest)
    have hrest : ∀ o ∈ rest, isSetOp o = false :=
      fun o ho => hops o (List.mem_cons_of_mem op ho)
    cases op with
    | onCreated d p =>
      refine ih _ ?_ hrest
      simp only [isSetOp] at hop
      simp only [runEv, stepEv, on_created, hop]
      simpa using hf
    | clear => exact ih _ rfl hrest
    | wait => exact ih _ hf hrest

/-- C8: the Signal's flag is sticky.  (1) Once an operation sequence has left
the flag set (e.g. a watcher `set()` from `on_created`) and no `clear()` has
run since, every later `wait()` returns immediately — the subsequent
operations `more` may contain arbitrarily many `wait`s and non-matching
events.  (2) Immediately after a `clear()`, as long as no setting
`on_created` occurs, `wait()` finds the flag down and blocks until the next
`set()`. -/
theorem C8_signal_sticky :
    (∀ (h : Handler) (ops more : List EvOp),
      (runEv h ops).flag = true →
      (∀ op ∈ more, isClearOp op = false) →
      waitImmediate (runEv h (ops ++ more)) = true) ∧
    (∀ (h : Handler) (more : List EvOp),
      (∀ op ∈ more, isSetOp op = false) →
      waitImmediate (runEv (stepEv h .clear) more) = false) := by
  constructor
  · intro h ops more hset hnoclear
    rw [waitImmediate, runEv, List.foldl_append]
    exact flag_preserved_no_clear more (runEv h ops) hset hnoclear
  · intro h more hnoset
    exact flag_stays_false_no_set more (stepEv h .clear) rfl hnoset

/-- Witness for C8: a `.txt` creation event sets the flag; two later waits
(with an unrelated directory event in between) still return immediately;
after a clear followed by waits and a non-matching event, the wait blocks. -/
theorem C8_signal_sticky_witness :
    waitImmediate
      (runEv Handler.init
        ([EvOp.onCreated false ['a', '.', 't', 'x', 't']] ++
         [EvOp.wait, EvOp.onCreated true ['b', '.', 't', 'x', 't'], EvOp.wait])) = true ∧
    waitImmediate
      (runEv (stepEv Handler.init .clear)
        [EvOp.wait, EvOp.onCreated false ['c', '.', 'j', 's', 'o', 'n'], EvOp.wait]) =
      false := by
  constructor
  · exact C8_signal_sticky.1 Handler.init
      [EvOp.onCreated false ['a', '.', 't', 'x', 't']]
      [EvOp.wait, EvOp.onCreated true ['b', '.', 't', 'x', 't'], EvOp.wait]
      (by decide) (by decide)
  · exact C8_signal_sticky.2 Handler.init
      [EvOp.wait, EvOp.onCreated false ['c', '.', 'j', 's', 'o', 'n'], EvOp.wait]
      (by decide)

/-! ## C10 — normalization denominators -/

lemma le_foldl_max (l : List ℚ) : ∀ b : ℚ, b ≤ l.foldl max b := by
  induction l with
  | nil => intro b; exact le_rfl
  | cons c rest ih =>
    intro b
    calc b ≤ max b c := le_max_left b c
    _ ≤ rest.foldl max (max b c) := ih (max b c)

lemma foldl_min_le (l : List ℚ) : ∀ b : ℚ, l.foldl min b ≤ b := by
  induction l with
  | nil => intro b; exact le_rfl
  | cons c rest ih =>
    intro b
    calc rest.foldl min (min b c) ≤ min b c := ih (min b c)
    _ ≤ b := min_le_left b c

/-- For a nonempty vector, `np.min ≤ np.max`. -/
lemma listMin_le_listMax (l : List ℚ) (h : l ≠ []) : listMin l ≤ listMax l := by
  cases l with
  | nil => exact absurd rfl h
  | cons x xs =>
    calc listMin (x :: xs) = xs.foldl min x := rfl
    _ ≤ x := foldl_min_le xs x
    _ ≤ xs.foldl max x := le_foldl_max xs x
    _ = listMax (x :: xs) := rfl

/-- C10: the plain parameter-distance comparator `calculate_error` divides by
the bare `max - min`; on a constant parameterization this denominator is
exactly `0` and the division is unguarded, so the call yields no (finite)
result.  The spectral comparators are different: the denominator
`max - min + 1e-10` of `calculate_loss` / `calculate_error_spec` is strictly
positive on every nonempty vector. -/
theorem C10_unguarded_denominator :
    minmaxDenom [(5 : ℚ), 5] = 0 ∧
    calculate_error [(['l', 'e', 'd', ' ', '1'], 5), (['l', 'e', 'd', ' ', '2'], 5)]
      [(['l', 'e', 'd', ' ', '1'], 1), (['l', 'e', 'd', ' ', '2'], 2)] = none ∧
    ∀ l : List ℚ, l ≠ [] → 0 < minmaxDenomEps l := by
  refine ⟨by with_unfolding_all decide, by with_unfolding_all decide, ?_⟩
  intro l hl
  have h := listMin_le_listMax l hl
  have heps : (0 : ℚ) < epsSpec := by norm_num [epsSpec]
  rw [minmaxDenomEps]
  linarith

/-- Witness for C10's universal part at the constant singleton vector. -/
theorem C10_unguarded_denominator_witness :
    (0 : ℚ) < minmaxDenomEps [3] :=
  C10_unguarded_denominator.2.2 [3] (by decide)


/-! ## C5 — disjoint wavelength sets raise the domain error -/

/-- C5: whenever the integer-normalized key sets of the target and of the
processed current spectrum are disjoint, both `calculate_loss` and
`calculate_error_spec` raise `ValueError("No overlapping wavelengths between
spectra.")` instead of returning a value. -/
theorem C5_disjoint_raises (cur tgt : List (ℚ × ℚ))
    (hdisj : ∀ k ∈ (targetCleaned tgt).map Prod.fst,
      k ∉ (currentCleaned cur).map Prod.fst) :
    calculate_loss cur tgt =
      Except.error "No overlapping wavelengths between spectra." ∧
    calculate_error_spec cur tgt =
      Except.error "No overlapping wavelengths between spectra." := by
  have hempty : commonKeysSorted cur tgt = [] := by
    rw [commonKeysSorted]
    have hfil : ((targetCleaned tgt).map Prod.fst).filter
        (fun k => ((currentCleaned cur).map Prod.fst).contains k) = [] := by
      rw [List.filter_eq_nil_iff]
      intro k hk
      simpa using hdisj k hk
    rw [hfil]
    rfl
  constructor
  · rw [calculate_loss, hempty]; rfl
  · rw [calculate_error_spec, hempty]; rfl

/-- Witness for C5: spectra at 400 nm and 500 nm share no wavelength. -/
theorem C5_disjoint_raises_witness :
    calculate_loss [((400 : ℚ), 1)] [((500 : ℚ), 2)] =
      Except.error "No overlapping wavelengths between spectra." :=
  (C5_disjoint_raises [((400 : ℚ), 1)] [((500 : ℚ), 2)] (by with_unfolding_all decide)).1

/-! ## C3 / C7 — the converter's retry policy -/

/-- Attempt accounting of the retry loop: the loop never makes more than
`count + fuel` attempts, and every attempt beyond attempt `j` (for
`count < j`) was preceded by a retryable outcome at attempt `j`. -/
lemma txtToJsonLoop_retry (reads : ℕ → ReadResult) :
    ∀ (fuel count sleeps : ℕ),
      (txtToJsonLoop reads fuel count sleeps).attempts ≤ count + fuel ∧
      ∀ j, count < j → j < (txtToJsonLoop reads fuel count sleeps).attempts →
        retryable (reads j) := by
  intro fuel
  induction fuel with
  | zero =>
    intro count sleeps
    exact ⟨Nat.le_add_right count 0, fun j hj1 hj2 => absurd (hj1.trans hj2) (lt_irrefl count)⟩
  | succ fuel ih =>
    intro count sleeps
    cases hr : reads (count + 1) with
    | notFound =>
      refine ⟨?_, ?_⟩
      · simp only [txtToJsonLoop, hr]; omega
      · intro j hj1 hj2
        simp only [txtToJsonLoop, hr] at hj2
        omega
    | ioError =>
      by_cases hc : count + 1 < MAX_ATTEMPTS
      · have hrec := ih (count + 1) (sleeps + 1)
        refine ⟨?_, ?_⟩
        · simp only [txtToJsonLoop, hr, if_pos hc]; omega
        · intro j hj1 hj2
          simp only [txtToJsonLoop, hr, if_pos hc] at hj2
          rcases Nat.lt_or_ge (count + 1) j with h | h
          · exact hrec.2 j h hj2
          · have : j = count + 1 := by omega
            rw [this, hr]; trivial
      · refine ⟨?_, ?_⟩
        · simp only [txtToJsonLoop, hr, if_neg hc]; omega
        · intro j hj1 hj2
          simp only [txtToJsonLoop, hr, if_neg hc] at hj2
          omega
    | content lines =>
      by_cases he : lines.isEmpty
      · by_cases hc : count + 1 < MAX_ATTEMPTS
        · have hrec := ih (count + 1) (sleeps + 1)
          refine ⟨?_, ?_⟩
          · simp only [txtToJsonLoop, hr, if_pos he, if_pos hc]; omega
          · intro j hj1 hj2
            simp only [txtToJsonLoop, hr, if_pos he, if_pos hc] at hj2
            rcases Nat.lt_or_ge (count + 1) j with h | h
            · exact hrec.2 j h hj2
            · have : j = count + 1 := by omega
              rw [this, hr]
              simpa [retryable, List.isEmpty_iff] using he
        · refine ⟨?_, ?_⟩
          · simp only [txtToJsonLoop, hr, if_pos he, if_neg hc]; omega
          · intro j hj1 hj2
            simp only [txtToJsonLoop, hr, if_pos he, if_neg hc] at hj2
            omega
      · refine ⟨?_, ?_⟩
        · simp only [txtToJsonLoop, hr, if_neg he]; omega
        · intro j hj1 hj2
          simp only [txtToJsonLoop, hr, if_neg he] at hj2
          omega

/-- C3: (1) on a file that stays empty the converter makes exactly the
`MAX_ATTEMPTS = 5` read attempts, sleeping 1 s before each of the 4 retries,
and then returns `(None, None)`; (2) for *every* read oracle the converter
makes at most 5 attempts, and an attempt `j + 1` is only ever made after a
retryable outcome at attempt `j` — i.e. only an `IOError` during reading or a
present-but-empty file is retried (a missing file, malformed content, or any
successful nonempty read ends the loop at once). -/
theorem C3_retry_policy :
    txt_to_json (fun _ => ReadResult.content []) = ⟨none, 5, 4⟩ ∧
    ∀ reads : ℕ → ReadResult,
      (txt_to_json reads).attempts ≤ 5 ∧
      ∀ j, 1 ≤ j → j < (txt_to_json reads).attempts → retryable (reads j) := by
  refine ⟨by decide, fun reads => ?_⟩
  have h := txtToJsonLoop_retry reads MAX_ATTEMPTS 0 0
  exact ⟨h.1, fun j hj1 hj2 => h.2 j hj1 hj2⟩

/-- Witness for C3's universal part: an oracle whose first read hits an
`IOError` and whose second read succeeds makes exactly 2 attempts, and the
theorem certifies that the condition retried at attempt 1 was retryable. -/
theorem C3_retry_policy_witness :
    retryable ((fun k => if k = 1 then ReadResult.ioError
                         else ReadResult.content [['x']]) 1) ∧
    (txt_to_json (fun k => if k = 1 then ReadResult.ioError
                           else ReadResult.content [['x']])).attempts ≤ 5 := by
  have h := C3_retry_policy.2
    (fun k => if k = 1 then ReadResult.ioError else ReadResult.content [['x']])
  exact ⟨h.2 1 (by decide) (by decide), h.1⟩

/-- C7: when the first read succeeds with nonempty lines from which no trial
number or no parameters can be extracted, the converter returns
`(None, None)` from attempt 1, with no retry and no sleep: malformed content
is not treated as transient. -/
theorem C7_malformed_not_retried (lines : List (List Char)) (reads : ℕ → ReadResult)
    (hread : reads 1 = ReadResult.content lines) (hne : lines ≠ [])
    (hmal : (processLines lines).1 = none ∨ (processLines lines).2 = none) :
    txt_to_json reads = ⟨none, 1, 0⟩ := by
  have hcore : txt_to_json_core lines = none := by
    rw [txt_to_json_core]
    rcases hpl : processLines lines with ⟨tn, ps⟩
    rw [hpl] at hmal
    rcases tn with _ | t
    · rcases ps with _ | p <;> rfl
    · rcases ps with _ | p
      · rfl
      · simp at hmal
  have hempty : lines.isEmpty = false := by
    cases lines with
    | nil => exact absurd rfl hne
    | cons a l => rfl
  show txtToJsonLoop reads MAX_ATTEMPTS 0 0 = ⟨none, 1, 0⟩
  rw [show MAX_ATTEMPTS = 4 + 1 from rfl]
  simp only [txtToJsonLoop, Nat.zero_add, hread, hempty, Bool.false_eq_true,
    if_false, hcore]

/-- Witness for C7: a nonempty file holding only a trial line (no parameters
line) fails at attempt 1 without retries. -/
theorem C7_malformed_not_retried_witness :
    txt_to_json (fun _ => ReadResult.content
      [['T', 'r', 'i', 'a', 'l', ' ', '3']]) = ⟨none, 1, 0⟩ :=
  C7_malformed_not_retried [['T', 'r', 'i', 'a', 'l', ' ', '3']] _
    rfl (by decide) (Or.inr (by decide))

/-! ## C6 — `process_spectra` keeps the first occurrence per wavelength -/

/-- The `visto`-set loop equals the specification-style dedup of the rounded
list restricted to keys not already seen. -/
lemma process_spectra_aux_eq (l : List (ℚ × ℚ)) :
    ∀ visto : List ℤ,
      process_spectra_aux l visto =
        dedupFirstBy ((l.map (fun p => (pyRound p.1, p.2))).filter
          (fun q => !(visto.contains q.1))) := by
  induction l with
  | nil => intro visto; simp [process_spectra_aux, dedupFirstBy]
  | cons p rest ih =>
    intro visto
    simp only [List.map_cons, List.filter_cons]
    by_cases hw : pyRound p.1 ∈ visto
    · have hc : visto.contains (pyRound p.1) = true := by
        simpa [List.contains, List.elem_iff] using hw
      simp only [process_spectra_aux, if_pos hw, hc, Bool.not_true,
        Bool.false_eq_true, if_false]
      exact ih visto
    · have hc : visto.contains (pyRound p.1) = false := by
        simpa [List.contains, List.elem_iff] using hw
      simp only [process_spectra_aux, if_neg hw, hc, Bool.not_false, if_true]
      rw [dedupFirstBy, ih (pyRound p.1 :: visto), List.filter_filter]
      congr 2
      apply List.filter_congr
      intro a _
      simp [List.contains_cons, Bool.not_or, Bool.and_comm, decide_not,
        Bool.beq_eq_decide_eq]

/-- Bounded-length version of the dedup order lemma. -/
lemma dedupFirstBy_sublist_aux :
    ∀ n (l : List (ℤ × ℚ)), l.length ≤ n → List.Sublist (dedupFirstBy l) l := by
  intro n
  induction n with
  | zero =>
    intro l hl
    rw [List.length_eq_zero.mp (Nat.le_zero.mp hl)]
    simp [dedupFirstBy]
  | succ n ih =>
    intro l hl
    cases l with
    | nil => simp [dedupFirstBy]
    | cons p rest =>
      rw [dedupFirstBy]
      refine List.Sublist.cons₂ p ?_
      have hn : (rest.filter (fun q => q.1 ≠ p.1)).length ≤ n :=
        le_trans (List.length_filter_le _ _)
          (by simpa [Nat.succ_le_succ_iff] using hl)
      exact (ih _ hn).trans (List.filter_sublist rest)

/-- The dedup keeps a subsequence of its input. -/
lemma dedupFirstBy_sublist (l : List (ℤ × ℚ)) : List.Sublist (dedupFirstBy l) l :=
  dedupFirstBy_sublist_aux l.length l le_rfl

lemma dedupFirstBy_keys_nodup_aux :
    ∀ n (l : List (ℤ × ℚ)), l.length ≤ n → ((dedupFirstBy l).map Prod.fst).Nodup := by
  intro n
  induction n with
  | zero =>
    intro l hl
    rw [List.length_eq_zero.mp (Nat.le_zero.mp hl)]
    simp [dedupFirstBy]
  | succ n ih =>
    intro l hl
    cases l with
    | nil => simp [dedupFirstBy]
    | cons p rest =>
      rw [dedupFirstBy]
      simp only [List.map_cons, List.nodup_cons]
      have hn : (rest.filter (fun q => q.1 ≠ p.1)).length ≤ n :=
        le_trans (List.length_filter_le _ _)
          (by simpa [Nat.succ_le_succ_iff] using hl)
      refine ⟨?_, ih _ hn⟩
      intro hmem
      rcases List.mem_map.1 hmem with ⟨q, hq, hq1⟩
      have hqf : q ∈ rest.filter (fun q => q.1 ≠ p.1) :=
        (dedupFirstBy_sublist _).subset hq
      have := List.of_mem_filter hqf
      simp only [hq1, decide_not] at this
      simp at this

/-- The kept wavelengths are pairwise distinct. -/
lemma dedupFirstBy_keys_nodup (l : List (ℤ × ℚ)) :
    ((dedupFirstBy l).map Prod.fst).Nodup :=
  dedupFirstBy_keys_nodup_aux l.length l le_rfl

/-- C6: `process_spectra` rounds each wavelength with Python's
`int(round(·))` and keeps exactly the first occurrence per integer
wavelength: it equals the specification-style first-seen-wins dedup of the
rounded input, it is a sublist of the rounded input (input order of the kept
entries is preserved), and its integer wavelengths are pairwise distinct. -/
theorem C6_first_seen_wins (l : List (ℚ × ℚ)) :
    process_spectra l = dedupFirstBy (l.map (fun p => (pyRound p.1, p.2))) ∧
    List.Sublist (process_spectra l) (l.map (fun p => (pyRound p.1, p.2))) ∧
    ((process_spectra l).map Prod.fst).Nodup := by
  have h := process_spectra_aux_eq l []
  have hfil : (l.map (fun p => (pyRound p.1, p.2))).filter
      (fun q => !(([] : List ℤ).contains q.1)) =
      l.map (fun p => (pyRound p.1, p.2)) := by
    simp
  rw [hfil] at h
  refine ⟨h, ?_, ?_⟩
  · rw [process_spectra, h]
    exact dedupFirstBy_sublist _
  · rw [process_spectra, h]
    exact dedupFirstBy_keys_nodup _

/-! ## C2 — the end-to-end comparator scenario
current `{400.4: 10, 500.6: 20}` (= `{2002/5: 10, 2503/5: 20}`),
target `{"400": 12, "500": 18}` -/

/-- C2, counterexample: Python `round(500.6) = 501`, so on the claimed input
the common integer-wavelength set is *not* `{400, 500}` — only `400` is
shared — and the loss is `0`, not `√2` (the claimed norm `√2` would make the
squared loss `2`; the actual squared loss is `0`). -/
theorem C2_counterexample :
    pyRound (2503 / 5 : ℚ) = 501 ∧
    commonKeysSorted [(2002 / 5, 10), (2503 / 5, 20)] [(400, 12), (500, 18)] ≠
      [400, 500] ∧
    calculate_loss [(2002 / 5, 10), (2503 / 5, 20)] [(400, 12), (500, 18)] =
      Except.ok 0 ∧
    (0 : ℚ) ≠ 2 ^ 2 / 2 := by
  refine ⟨by with_unfolding_all decide, by with_unfolding_all decide,
    by with_unfolding_all decide, by norm_num⟩

/-- C2, amended: on the input pair current `{400.4: 10, 500.6: 20}` and
target `{"400": 12, "500": 18}`, the comparator computes the common
integer-wavelength set `{400}` (since `500.6` rounds to `501`), the current
series `[10]` and target series `[12]` both normalize to `[0]`, and
`calculate_loss` / `calculate_error_spec` return the L2 norm `0` (squared
loss `0`) with placeholder variance `0.0`. -/
theorem C2_scenario_actual :
    commonKeysSorted [(2002 / 5, 10), (2503 / 5, 20)] [(400, 12), (500, 18)] =
      [400] ∧
    (commonKeysSorted [(2002 / 5, 10), (2503 / 5, 20)] [(400, 12), (500, 18)]).map
      (dictGet (currentCleaned [(2002 / 5, 10), (2503 / 5, 20)])) = [10] ∧
    (commonKeysSorted [(2002 / 5, 10), (2503 / 5, 20)] [(400, 12), (500, 18)]).map
      (dictGet (targetCleaned [(400, 12), (500, 18)])) = [12] ∧
    normalizeEps [10] = [0] ∧
    normalizeEps [12] = [0] ∧
    calculate_loss [(2002 / 5, 10), (2503 / 5, 20)] [(400, 12), (500, 18)] =
      Except.ok 0 ∧
    calculate_error_spec [(2002 / 5, 10), (2503 / 5, 20)] [(400, 12), (500, 18)] =
      Except.ok (0, 0) := by
  refine ⟨?_, ?_, ?_, ?_, ?_, ?_, ?_⟩ <;> with_unfolding_all decide

/-! ## C4 / C9 — string-processing lemmas -/

lemma takeWhile_eq_self_of_all {p : Char → Bool} :
    ∀ l : List Char, (∀ c ∈ l, p c = true) → l.takeWhile p = l := by
  intro l
  induction l with
  | nil => intro _; rfl
  | cons c rest ih =>
    intro h
    rw [List.takeWhile_cons, h c (List.mem_cons_self c rest)]
    simp only [if_true]
    rw [ih (fun d hd => h d (List.mem_cons_of_mem c hd))]

lemma takeWhile_append_of_all {p : Char → Bool} :
    ∀ (xs ys : List Char), (∀ c ∈ xs, p c = true) →
      (xs ++ ys).takeWhile p = xs ++ ys.takeWhile p := by
  intro xs
  induction xs with
  | nil => intro ys _; rfl
  | cons c rest ih =>
    intro ys h
    rw [List.cons_append, List.takeWhile_cons, h c (List.mem_cons_self c rest)]
    simp only [if_true]
    rw [ih ys (fun d hd => h d (List.mem_cons_of_mem c hd)), List.cons_append]

lemma dropWhile_append_of_all {p : Char → Bool} :
    ∀ (xs ys : List Char), (∀ c ∈ xs, p c = true) →
      (xs ++ ys).dropWhile p = ys.dropWhile p := by
  intro xs
  induction xs with
  | nil => intro ys _; rfl
  | cons c rest ih =>
    intro ys h
    rw [List.cons_append, List.dropWhile_cons, h c (List.mem_cons_self c rest)]
    simp only [if_true]
    exact ih ys (fun d hd => h d (List.mem_cons_of_mem c hd))

lemma skipWs_cons_false {c : Char} (l : List Char) (h : isPyWs c = false) :
    skipWs (c :: l) = c :: l := by
  rw [skipWs, List.dropWhile_cons, h]
  simp

lemma skipWs_cons_ws {c : Char} (l : List Char) (h : isPyWs c = true) :
    skipWs (c :: l) = skipWs l := by
  rw [skipWs, List.dropWhile_cons, h]
  simp [skipWs]

lemma skipWs_nil : skipWs [] = [] := rfl

lemma skipWs_cons (c : Char) (l : List Char) :
    skipWs (c :: l) = if isPyWs c = true then skipWs l else c :: l := by
  by_cases h : isPyWs c = true
  · rw [if_pos h]
    exact skipWs_cons_ws l h
  · rw [if_neg h]
    exact skipWs_cons_false l (by simpa using h)

lemma isPyWs_of_isDigit {c : Char} (h : c.isDigit = true) : isPyWs c = false := by
  rw [isPyWs]
  have h1 : c ≠ ' ' := fun he => by rw [he] at h; exact absurd h (by decide)
  have h2 : c ≠ '\t' := fun he => by rw [he] at h; exact absurd h (by decide)
  have h3 : c ≠ '\n' := fun he => by rw [he] at h; exact absurd h (by decide)
  have h4 : c ≠ '\r' := fun he => by rw [he] at h; exact absurd h (by decide)
  simp [h1, h2, h3, h4]

/-- `strip()` does nothing when both ends are non-whitespace. -/
lemma pyStrip_eq_self_of_ends (pre t : List Char) (c0 : Char)
    (hpre : pre = c0 :: pre.tail) (hc0 : isPyWs c0 = false)
    (cl : Char) (cls : List Char) (hrev : t.reverse = cl :: cls)
    (hcl : isPyWs cl = false) :
    pyStrip (pre ++ t) = pre ++ t := by
  rw [pyStrip]
  rw [hpre, List.cons_append, List.dropWhile_cons, hc0]
  simp only [Bool.false_eq_true, if_false]
  rw [← List.cons_append, ← hpre]
  rw [List.reverse_append, hrev, List.cons_append, List.dropWhile_cons, hcl]
  simp only [Bool.false_eq_true, if_false]
  rw [← List.cons_append, ← hrev, ← List.reverse_append, List.reverse_reverse]

/-- Generic head-mismatch disproof of the case-insensitive prefix check. -/
lemma pyLowerStartsWith_cons_false (p : Char) (pre : List Char) (c : Char)
    (l : List Char) (h : asciiLower c ≠ p) :
    pyLowerStartsWith (p :: pre) (c :: l) = false := by
  simp only [pyLowerStartsWith, List.length_cons, List.take_succ_cons,
    List.map_cons]
  simp [h]

lemma renderNat_ne_nil (n : ℕ) : renderNat n ≠ [] := by
  rw [renderNat]
  split
  · simp
  · next h =>
    have : Nat.digits 10 n ≠ [] := Nat.digits_ne_nil_iff_ne_zero.mpr h
    simp [this]

lemma renderNat_all_digit (n : ℕ) : ∀ c ∈ renderNat n, c.isDigit = true := by
  intro c hc
  rw [renderNat] at hc
  split at hc
  · simp at hc
    rw [hc]; decide
  · rw [List.mem_reverse] at hc
    rcases List.mem_map.1 hc with ⟨d, hd, rfl⟩
    have hlt : d < 10 := Nat.digits_lt_base (by norm_num) hd
    interval_cases d <;> decide

lemma foldr_eq_ofDigits (L : List ℕ) :
    L.foldr (fun d acc => acc * 10 + d) 0 = Nat.ofDigits 10 L := by
  induction L with
  | nil => rfl
  | cons d L ih =>
    rw [List.foldr_cons, ih, Nat.ofDigits_cons]
    ring

lemma parseNatDigits_renderNat (n : ℕ) : parseNatDigits (renderNat n) = n := by
  rw [renderNat, parseNatDigits]
  split
  · next h => rw [h]; decide
  · next h =>
    rw [List.foldl_reverse, List.foldr_map]
    have key : ∀ L : List ℕ, (∀ d ∈ L, d < 10) →
        L.foldr (fun c acc => acc * 10 + ((Char.ofNat (48 + c)).toNat - 48)) 0 =
          L.foldr (fun d acc => acc * 10 + d) 0 := by
      intro L
      induction L with
      | nil => intro _; rfl
      | cons d L ih =>
        intro hL
        rw [List.foldr_cons, List.foldr_cons,
          ih (fun x hx => hL x (List.mem_cons_of_mem d hx))]
        have hlt : d < 10 := hL d (List.mem_cons_self d L)
        have hd : (Char.ofNat (48 + d)).toNat - 48 = d := by
          interval_cases d <;> decide
        rw [hd]
    rw [key (Nat.digits 10 n) (fun d hd => Nat.digits_lt_base (by norm_num) hd),
      foldr_eq_ofDigits, Nat.ofDigits_digits]

/-! ### Integer-token round trip -/

lemma parseNatTok_render (n : ℕ) (rest : List Char)
    (hrest : rest.takeWhile Char.isDigit = []) :
    parseNatTok (renderNat n ++ rest) = some (n, rest) := by
  have htake : (renderNat n ++ rest).takeWhile Char.isDigit = renderNat n := by
    rw [takeWhile_append_of_all _ _ (renderNat_all_digit n), hrest, List.append_nil]
  have hdrop : (renderNat n ++ rest).dropWhile Char.isDigit = rest := by
    rw [dropWhile_append_of_all _ _ (renderNat_all_digit n)]
    have := List.takeWhile_append_dropWhile (p := Char.isDigit) (l := rest)
    rw [hrest] at this
    simpa using this
  rw [parseNatTok, htake, hdrop, if_neg (renderNat_ne_nil n),
    parseNatDigits_renderNat]

lemma renderInt_head_not_dash (n : ℕ) :
    (renderNat n).head? ≠ some '-' := by
  intro h
  cases hr : renderNat n with
  | nil => exact renderNat_ne_nil n hr
  | cons c cs =>
    rw [hr] at h
    simp only [List.head?_cons, Option.some.injEq] at h
    have := renderNat_all_digit n c (by rw [hr]; exact List.mem_cons_self c cs)
    rw [h] at this
    exact absurd this (by decide)

lemma parseIntTok_render (v : ℤ) (rest : List Char)
    (hrest : rest.takeWhile Char.isDigit = []) :
    parseIntTok (renderInt v ++ rest) = some (v, rest) := by
  rw [renderInt]
  by_cases hv : v < 0
  · rw [if_pos hv, parseIntTok]
    simp only [List.cons_append, List.head?_cons, List.tail_cons]
    simp only [if_true]
    rw [parseNatTok_render v.natAbs rest hrest]
    simp only [Option.map_some']
    refine congrArg some (Prod.ext ?_ rfl)
    simp only
    omega
  · rw [if_neg hv, parseIntTok]
    have hhead : (renderNat v.natAbs ++ rest).head? ≠ some '-' := by
      cases hr : renderNat v.natAbs with
      | nil => exact absurd hr (renderNat_ne_nil v.natAbs)
      | cons c cs =>
        rw [List.cons_append, List.head?_cons]
        have h2 := renderInt_head_not_dash v.natAbs
        rw [hr] at h2
        simpa using h2
    rw [if_neg hhead, parseNatTok_render v.natAbs rest hrest]
    simp only [Option.map_some']
    refine congrArg some (Prod.ext ?_ rfl)
    simp only
    omega

/-! ### Dict-literal round trip -/

lemma renderInt_ne_nil (v : ℤ) : renderInt v ≠ [] := by
  rw [renderInt]
  split
  · simp
  · exact renderNat_ne_nil v.natAbs

lemma renderInt_head_not_ws (v : ℤ) (rest : List Char) :
    skipWs (renderInt v ++ rest) = renderInt v ++ rest := by
  cases hr : renderInt v with
  | nil => exact absurd hr (renderInt_ne_nil v)
  | cons c cs =>
    rw [List.cons_append]
    apply skipWs_cons_false
    have hmem : c ∈ renderInt v := by rw [hr]; exact List.mem_cons_self c cs
    rw [renderInt] at hmem
    split at hmem
    · rcases List.mem_cons.1 hmem with rfl | hmem'
      · decide
      · exact isPyWs_of_isDigit (renderNat_all_digit _ c hmem')
    · exact isPyWs_of_isDigit (renderNat_all_digit _ c hmem)

lemma renderEntries_cons_skipWs (e : List Char × ℤ) (es : List (List Char × ℤ))
    (Y : List Char) :
    skipWs (renderEntries (e :: es) ++ Y) = renderEntries (e :: es) ++ Y := by
  rw [renderEntries.eq_def]
  simp only []
  rw [renderEntry]
  simp only [List.cons_append, List.append_assoc]
  exact skipWs_cons_false _ (by decide)

/-- The entry parser inverts the renderer on every valid entry list. -/
lemma parseEntries_render :
    ∀ (ps : List (List Char × ℤ)) (fuel : ℕ), ps.length < fuel →
      (∀ kv ∈ ps, '\'' ∉ kv.1) →
      parseEntries fuel (renderEntries ps ++ ['}']) = some ps := by
  intro ps
  induction ps with
  | nil =>
    intro fuel hfuel _
    cases fuel with
    | zero => omega
    | succ f => rw [renderEntries]; rfl
  | cons kv rest ih =>
    intro fuel hfuel hkeys
    cases fuel with
    | zero => omega
    | succ f =>
      obtain ⟨k, v⟩ := kv
      have hknq : ∀ c ∈ k, (fun c => decide (c ≠ '\'')) c = true := by
        intro c hc
        have : c ≠ '\'' := fun he =>
          (hkeys (k, v) (List.mem_cons_self _ _)) (he ▸ hc)
        simpa using this
      have happ : ∀ X : List Char,
          renderEntry k v ++ X =
            '\'' :: (k ++ ('\'' :: ':' :: ' ' :: (renderInt v ++ X))) := by
        intro X
        rw [renderEntry]
        simp [List.cons_append, List.append_assoc]
      have hspan1 : ∀ X : List Char,
          (k ++ ('\'' :: ':' :: ' ' :: (renderInt v ++ X))).dropWhile
            (fun c => decide (c ≠ '\'')) =
            '\'' :: ':' :: ' ' :: (renderInt v ++ X) := by
        intro X
        rw [dropWhile_append_of_all _ _ hknq, List.dropWhile_cons]
        simp
      have hspan2 : ∀ X : List Char,
          (k ++ ('\'' :: ':' :: ' ' :: (renderInt v ++ X))).takeWhile
            (fun c => decide (c ≠ '\'')) = k := by
        intro X
        rw [takeWhile_append_of_all _ _ hknq, List.takeWhile_cons]
        simp
      cases hrest : rest with
      | nil =>
        rw [renderEntries.eq_def]
        simp only [List.append_nil]
        rw [happ ['}'], parseEntries]
        simp +decide only [List.head?_cons, List.tail_cons, if_true, if_false,
          hspan1, hspan2, skipWs_cons, skipWs_nil, isPyWs, renderInt_head_not_ws]
        rw [parseIntTok_render v ['}'] (by decide)]
        simp +decide only [List.head?_cons, List.tail_cons, if_true, if_false,
          skipWs_cons, skipWs_nil, isPyWs]
      | cons kv2 rest2 =>
        have hrec := ih f (by simp at hfuel ⊢; omega)
          (fun x hx => hkeys x (List.mem_cons_of_mem _ hx))
        rw [hrest] at hrec
        rw [renderEntries.eq_def]
        simp only []
        rw [show (renderEntry k v ++
              (',' :: ' ' :: renderEntries (kv2 :: rest2))) ++ ['}'] =
            renderEntry k v ++
              (',' :: ' ' :: (renderEntries (kv2 :: rest2) ++ ['}'])) by
          simp [List.append_assoc]]
        rw [happ (',' :: ' ' :: (renderEntries (kv2 :: rest2) ++ ['}'])),
          parseEntries]
        simp +decide only [List.head?_cons, List.tail_cons, if_true, if_false,
          hspan1, hspan2, skipWs_cons, skipWs_nil, isPyWs, renderInt_head_not_ws]
        rw [parseIntTok_render v (',' :: ' ' :: (renderEntries (kv2 :: rest2) ++ ['}']))
          (by rfl)]
        simp +decide only [List.head?_cons, List.tail_cons, if_true, if_false,
          skipWs_cons, skipWs_nil, isPyWs]
        rw [renderEntries_cons_skipWs kv2 rest2 ['}'], hrec]
        rfl

lemma renderEntry_length_pos (k : List Char) (v : ℤ) :
    1 ≤ (renderEntry k v).length := by
  rw [renderEntry]
  simp

lemma renderEntries_length (ps : List (List Char × ℤ)) :
    ps.length ≤ (renderEntries ps).length := by
  induction ps with
  | nil => simp [renderEntries]
  | cons kv rest ih =>
    rw [renderEntries.eq_def]
    cases rest with
    | nil =>
      simp only [List.length_cons, List.length_nil]
      have := renderEntry_length_pos kv.1 kv.2
      simp only [List.append_nil]
      omega
    | cons kv2 rest2 =>
      simp only [List.length_cons, List.length_append, List.length_cons]
      have h1 := renderEntry_length_pos kv.1 kv.2
      simp only [List.length_cons] at ih
      omega

lemma renderEntries_skipWs (ps : List (List Char × ℤ)) :
    skipWs (renderEntries ps ++ ['}']) = renderEntries ps ++ ['}'] := by
  cases ps with
  | nil =>
    rw [renderEntries]
    simp only [List.nil_append]
    exact skipWs_cons_false _ (by decide)
  | cons e es => exact renderEntries_cons_skipWs e es ['}']

/-- `eval` of the rendered payload ` {'k': v, ...}` recovers the dict. -/
lemma parsePyDict_render (ps : List (List Char × ℤ))
    (hkeys : ∀ kv ∈ ps, '\'' ∉ kv.1) :
    parsePyDict (' ' :: renderDict ps) = some (pyDictOfList ps) := by
  rw [parsePyDict, skipWs_cons_ws _ (by decide), renderDict]
  simp only [List.cons_append]
  rw [skipWs_cons_false _ (by decide)]
  simp only [List.head?_cons, List.tail_cons, if_true]
  rw [renderEntries_skipWs ps,
    parseEntries_render ps ((renderEntries ps ++ ['}']).length + 1)
      (by have := renderEntries_length ps; simp; omega) hkeys]
  rfl

lemma pyDictOfList_foldl {α β : Type} [DecidableEq α] :
    ∀ (l acc : List (α × β)), (l.map Prod.fst).Nodup →
      (∀ k ∈ l.map Prod.fst, ∀ p ∈ acc, p.1 ≠ k) →
      l.foldl (fun d p => pyDictInsert d p.1 p.2) acc = acc ++ l := by
  intro l
  induction l with
  | nil => intro acc _ _; simp
  | cons kv rest ih =>
    intro acc hnodup hdisj
    obtain ⟨k, v⟩ := kv
    have hknotin : ∀ p ∈ acc, p.1 ≠ k :=
      hdisj k (by simp)
    have hins : pyDictInsert acc k v = acc ++ [(k, v)] := by
      rw [pyDictInsert, if_neg]
      simp only [List.any_eq_true, not_exists, not_and]
      intro p hp
      simpa using hknotin p hp
    rw [List.foldl_cons]
    simp only at hins ⊢
    rw [hins]
    rw [ih (acc ++ [(k, v)])
      (by simpa using (List.nodup_cons.1 (by simpa using hnodup)).2)
      ?_]
    · simp
    · intro k' hk' p hp
      rcases List.mem_append.1 hp with hpa | hpk
      · exact hdisj k' (by simp [hk']) p hpa
      · have : p = (k, v) := by simpa using hpk
        rw [this]
        simp only
        intro he
        have hknotin2 : k ∉ rest.map Prod.fst :=
          (List.nodup_cons.1 (by simpa using hnodup)).1
        rw [he] at hknotin2
        exact hknotin2 hk'

/-- A Python dict built from pairs with distinct keys is those pairs. -/
lemma pyDictOfList_eq_self {α β : Type} [DecidableEq α] (l : List (α × β))
    (hnodup : (l.map Prod.fst).Nodup) : pyDictOfList l = l := by
  rw [pyDictOfList, pyDictOfList_foldl l [] hnodup (by simp)]
  simp

/-- `re.search(r'\d+')` on a channel of shape `<non-digit prefix><digits>`
returns exactly the digits. -/
lemma firstDigitRun_append (pre : List Char) :
    ∀ (ds : List Char), (∀ c ∈ pre, c.isDigit = false) → ds ≠ [] →
      (∀ c ∈ ds, c.isDigit = true) →
      firstDigitRun (pre ++ ds) = some ds := by
  induction pre with
  | nil =>
    intro ds _ hne hds
    cases ds with
    | nil => exact absurd rfl hne
    | cons d dt =>
      rw [List.nil_append, firstDigitRun,
        if_pos (hds d (List.mem_cons_self d dt))]
      rw [takeWhile_eq_self_of_all _ hds]
  | cons c pre' ih =>
    intro ds hpre hne hds
    rw [List.cons_append, firstDigitRun,
      if_neg (by simp [hpre c (List.mem_cons_self c pre')])]
    exact ih ds (fun x hx => hpre x (List.mem_cons_of_mem c hx)) hne hds

/-- Channel stripping on a list of `<prefix><digits>` keys. -/
lemma convertParams_of_split :
    ∀ ps : List ((List Char × List Char) × ℤ),
      (∀ e ∈ ps, (∀ c ∈ e.1.1, c.isDigit = false) ∧ e.1.2 ≠ [] ∧
        (∀ c ∈ e.1.2, c.isDigit = true)) →
      convertParams (ps.map (fun e => (e.1.1 ++ e.1.2, e.2))) =
        some (ps.map (fun e => ⟨e.1.2, e.2⟩)) := by
  intro ps
  induction ps with
  | nil => intro _; rfl
  | cons e rest ih =>
    intro h
    obtain ⟨he1, he2, he3⟩ := h e (List.mem_cons_self e rest)
    rw [List.map_cons, convertParams, List.mapM_cons]
    simp only
    rw [firstDigitRun_append e.1.1 e.1.2 he1 he2 he3]
    have hrest := ih (fun x hx => h x (List.mem_cons_of_mem e hx))
    rw [convertParams] at hrest
    simp only [Option.map_some', Option.bind_some, hrest, List.map_cons]
    rfl

/-! ### Line processing on the rendered artifact -/

lemma pyStrip_eq_self (l : List Char)
    (h1 : ∀ c, l.head? = some c → isPyWs c = false)
    (h2 : ∀ c, l.getLast? = some c → isPyWs c = false) :
    pyStrip l = l := by
  cases l with
  | nil => rfl
  | cons a as =>
    have hd1 : List.dropWhile isPyWs (a :: as) = a :: as := by
      rw [List.dropWhile_cons, h1 a rfl]; simp
    rcases hrev : (a :: as).reverse with _ | ⟨b, bs⟩
    · simp at hrev
    · have hb : (a :: as).getLast? = some b := by
        rw [← List.head?_reverse, hrev, List.head?_cons]
      have hd2 : List.dropWhile isPyWs (b :: bs) = b :: bs := by
        rw [List.dropWhile_cons, h2 b hb]; simp
      rw [pyStrip, hd1, hrev, hd2, ← hrev, List.reverse_reverse]

lemma pyStrip_trialLine (t : List Char) (hne : t ≠ [])
    (hds : ∀ c ∈ t, c.isDigit = true) :
    pyStrip (renderTrialLine t) = renderTrialLine t := by
  apply pyStrip_eq_self
  · intro c hc
    rw [renderTrialLine, List.head?_cons, Option.some.injEq] at hc
    rw [← hc]; decide
  · intro c hc
    rw [renderTrialLine] at hc
    have : ('T' :: 'r' :: 'i' :: 'a' :: 'l' :: ' ' :: t) =
        ['T', 'r', 'i', 'a', 'l', ' '] ++ t := rfl
    rw [this, List.getLast?_append_of_ne_nil _ hne] at hc
    exact isPyWs_of_isDigit (hds c (List.mem_of_getLast?_eq_some hc))

lemma pyStrip_paramsLine (ps : List (List Char × ℤ)) :
    pyStrip (renderParamsLine ps) = renderParamsLine ps := by
  apply pyStrip_eq_self
  · intro c hc
    rw [renderParamsLine, paramsPrefixExact, List.cons_append,
      List.head?_cons, Option.some.injEq] at hc
    rw [← hc]; decide
  · intro c hc
    rw [renderParamsLine, renderDict] at hc
    have heq : paramsPrefixExact ++ ' ' :: ('{' :: renderEntries ps ++ ['}']) =
        (paramsPrefixExact ++ ' ' :: '{' :: renderEntries ps) ++ ['}'] := by
      simp
    rw [heq, List.getLast?_concat, Option.some.injEq] at hc
    rw [← hc]; decide

/-- The trial regex on the rendered trial line captures exactly the digits. -/
lemma findTrialNum_render (t : List Char) (hne : t ≠ [])
    (hds : ∀ c ∈ t, c.isDigit = true) :
    findTrialNum (renderTrialLine t) = some t := by
  rw [renderTrialLine, findTrialNum, trialMatchAt]
  have htake : ('T' :: 'r' :: 'i' :: 'a' :: 'l' :: ' ' :: t).take 6 =
      ['T', 'r', 'i', 'a', 'l', ' '] := rfl
  have hdrop : ('T' :: 'r' :: 'i' :: 'a' :: 'l' :: ' ' :: t).drop 6 = t := rfl
  rw [htake, hdrop, if_pos (by decide), takeWhile_eq_self_of_all t hds,
    if_neg hne]

lemma pyLowerStartsWith_trial_render (t : List Char) :
    pyLowerStartsWith trialPrefixLower (renderTrialLine t) = true := by
  rw [trialPrefixLower, renderTrialLine, pyLowerStartsWith]
  have : ('T' :: 'r' :: 'i' :: 'a' :: 'l' :: ' ' :: t).take 5 =
      ['T', 'r', 'i', 'a', 'l'] := rfl
  rw [List.length_cons, List.length_cons, List.length_cons, List.length_cons,
    List.length_cons, List.length_nil, this]
  decide

lemma pyLowerStartsWith_params_render (ps : List (List Char × ℤ)) :
    pyLowerStartsWith paramsPrefixLower (renderParamsLine ps) = true := by
  rw [renderParamsLine, pyLowerStartsWith, paramsPrefixExact, paramsPrefixLower]
  rfl

lemma not_params_trialLine (t : List Char) :
    pyLowerStartsWith paramsPrefixLower (renderTrialLine t) = false := by
  rw [paramsPrefixLower, renderTrialLine]
  exact pyLowerStartsWith_cons_false _ _ _ _ (by decide)

lemma paramsPrefixLower_cons :
    paramsPrefixLower = 'p' :: ['a', 'r', 'a', 'm', 'e', 't', 'e', 'r', 's', ':'] := rfl

lemma not_trial_paramsLine (ps : List (List Char × ℤ)) :
    pyLowerStartsWith trialPrefixLower (renderParamsLine ps) = false := by
  rw [trialPrefixLower, renderParamsLine, paramsPrefixExact, List.cons_append]
  exact pyLowerStartsWith_cons_false _ _ _ _ (by decide)

lemma isPrefixOf_append_self :
    ∀ (l r : List Char), l.isPrefixOf (l ++ r) = true := by
  intro l
  induction l with
  | nil => intro r; simp [List.isPrefixOf]
  | cons a as ih =>
    intro r
    rw [List.cons_append, List.isPrefixOf]
    simp [ih r]

lemma dropAfterFirst_prefix (sep rest : List Char) (hne : sep ≠ []) :
    dropAfterFirst sep (sep ++ rest) = some rest := by
  cases sep with
  | nil => exact absurd rfl hne
  | cons s ss =>
    rw [List.cons_append, dropAfterFirst, if_pos]
    · rw [show s :: (ss ++ rest) = (s :: ss) ++ rest from rfl, List.drop_left]
    · rw [show s :: (ss ++ rest) = (s :: ss) ++ rest from rfl]
      exact isPrefixOf_append_self (s :: ss) rest

lemma takeBeforeFirst_no_head (s0 : Char) (ss : List Char) :
    ∀ l : List Char, s0 ∉ l → takeBeforeFirst (s0 :: ss) l = l := by
  intro l
  induction l with
  | nil => intro _; rfl
  | cons c rest ih =>
    intro h
    have hs0 : s0 ≠ c := fun he => h (he ▸ List.mem_cons_self c rest)
    rw [takeBeforeFirst, if_neg]
    · rw [ih (fun hm => h (List.mem_cons_of_mem c hm))]
    · rw [List.isPrefixOf]
      simp [hs0]

lemma mem_renderInt {c : Char} (v : ℤ) (h : c ∈ renderInt v) :
    c = '-' ∨ c.isDigit = true := by
  rw [renderInt] at h
  split at h
  · rcases List.mem_cons.1 h with rfl | h'
    · exact Or.inl rfl
    · exact Or.inr (renderNat_all_digit _ c h')
  · exact Or.inr (renderNat_all_digit _ c h)

lemma mem_renderEntry {c : Char} (k : List Char) (v : ℤ)
    (h : c ∈ renderEntry k v) :
    c = '\'' ∨ c = ':' ∨ c = ' ' ∨ c = '-' ∨ c.isDigit = true ∨ c ∈ k := by
  rw [renderEntry] at h
  rcases List.mem_append.1 h with h1 | h2
  · rcases List.mem_cons.1 h1 with rfl | h1'
    · exact Or.inl rfl
    · exact Or.inr (Or.inr (Or.inr (Or.inr (Or.inr h1'))))
  · rcases List.mem_cons.1 h2 with rfl | h2'
    · exact Or.inl rfl
    · rcases List.mem_cons.1 h2' with rfl | h3
      · exact Or.inr (Or.inl rfl)
      · rcases List.mem_cons.1 h3 with rfl | h4
        · exact Or.inr (Or.inr (Or.inl rfl))
        · rcases mem_renderInt v h4 with h5 | h5
          · exact Or.inr (Or.inr (Or.inr (Or.inl h5)))
          · exact Or.inr (Or.inr (Or.inr (Or.inr (Or.inl h5))))

lemma mem_renderEntries {c : Char} :
    ∀ ps : List (List Char × ℤ), c ∈ renderEntries ps →
      c = ',' ∨ c = ' ' ∨ c = '\'' ∨ c = ':' ∨ c = '-' ∨ c.isDigit = true ∨
        ∃ kv ∈ ps, c ∈ kv.1 := by
  intro ps
  induction ps with
  | nil => intro h; rw [renderEntries] at h; simp at h
  | cons kv rest ih =>
    intro h
    rw [renderEntries.eq_def] at h
    cases rest with
    | nil =>
      simp only [List.append_nil] at h
      rcases mem_renderEntry kv.1 kv.2 h with h1 | h1 | h1 | h1 | h1 | h1
      · exact Or.inr (Or.inr (Or.inl h1))
      · exact Or.inr (Or.inr (Or.inr (Or.inl h1)))
      · exact Or.inr (Or.inl h1)
      · exact Or.inr (Or.inr (Or.inr (Or.inr (Or.inl h1))))
      · exact Or.inr (Or.inr (Or.inr (Or.inr (Or.inr (Or.inl h1)))))
      · exact Or.inr (Or.inr (Or.inr (Or.inr (Or.inr (Or.inr
          ⟨kv, List.mem_cons_self kv [], h1⟩)))))
    | cons kv2 rest2 =>
      simp only at h
      rcases List.mem_append.1 h with h1 | h2
      · rcases mem_renderEntry kv.1 kv.2 h1 with h3 | h3 | h3 | h3 | h3 | h3
        · exact Or.inr (Or.inr (Or.inl h3))
        · exact Or.inr (Or.inr (Or.inr (Or.inl h3)))
        · exact Or.inr (Or.inl h3)
        · exact Or.inr (Or.inr (Or.inr (Or.inr (Or.inl h3))))
        · exact Or.inr (Or.inr (Or.inr (Or.inr (Or.inr (Or.inl h3)))))
        · exact Or.inr (Or.inr (Or.inr (Or.inr (Or.inr (Or.inr
            ⟨kv, List.mem_cons_self kv _, h3⟩)))))
      · rcases List.mem_cons.1 h2 with rfl | h3
        · exact Or.inl rfl
        · rcases List.mem_cons.1 h3 with rfl | h4
          · exact Or.inr (Or.inl rfl)
          · rcases ih h4 with h5 | h5 | h5 | h5 | h5 | h5 | ⟨kv', hkv', hc⟩
            · exact Or.inl h5
            · exact Or.inr (Or.inl h5)
            · exact Or.inr (Or.inr (Or.inl h5))
            · exact Or.inr (Or.inr (Or.inr (Or.inl h5)))
            · exact Or.inr (Or.inr (Or.inr (Or.inr (Or.inl h5))))
            · exact Or.inr (Or.inr (Or.inr (Or.inr (Or.inr (Or.inl h5)))))
            · exact Or.inr (Or.inr (Or.inr (Or.inr (Or.inr (Or.inr
                ⟨kv', List.mem_cons_of_mem kv hkv', hc⟩)))))

lemma payload_no_P (ps : List (List Char × ℤ))
    (hk : ∀ kv ∈ ps, 'P' ∉ kv.1) : 'P' ∉ ' ' :: renderDict ps := by
  intro h
  rcases List.mem_cons.1 h with h1 | h1
  · exact absurd h1 (by decide)
  · rw [renderDict] at h1
    rcases List.mem_cons.1 h1 with h2 | h2
    · exact absurd h2 (by decide)
    · rcases List.mem_append.1 h2 with h3 | h3
      · rcases mem_renderEntries ps h3 with h4 | h4 | h4 | h4 | h4 | h4 | ⟨kv, hkv, hc⟩
        · exact absurd h4 (by decide)
        · exact absurd h4 (by decide)
        · exact absurd h4 (by decide)
        · exact absurd h4 (by decide)
        · exact absurd h4 (by decide)
        · exact absurd h4 (by decide)
        · exact hk kv hkv hc
      · simp at h3

/-- The case-sensitive `split("Parameters:")[1]` on the rendered parameters
line returns exactly the payload after the separator. -/
lemma paramsLine_split (ps : List (List Char × ℤ))
    (hk : ∀ kv ∈ ps, 'P' ∉ kv.1) :
    pySplitGet1 paramsPrefixExact (renderParamsLine ps) =
      some (' ' :: renderDict ps) := by
  rw [pySplitGet1, renderParamsLine,
    dropAfterFirst_prefix paramsPrefixExact _ (by decide), Option.map_some',
    show paramsPrefixExact = 'P' ::
      ['a', 'r', 'a', 'm', 'e', 't', 'e', 'r', 's', ':'] from rfl,
    takeBeforeFirst_no_head 'P' _ _ (payload_no_P ps hk)]

/-- `processLines` on the rendered two-line artifact: the trial digits are
extracted from line 1, and line 2's payload goes through the `eval` model. -/
lemma processLines_render (t : List Char) (ps : List (List Char × ℤ))
    (htne : t ≠ []) (htds : ∀ c ∈ t, c.isDigit = true)
    (hkP : ∀ kv ∈ ps, 'P' ∉ kv.1) :
    processLines [renderTrialLine t, renderParamsLine ps] =
      (some t, parsePyDict (' ' :: renderDict ps)) := by
  rw [processLines, List.foldl_cons, List.foldl_cons, List.foldl_nil]
  simp only [pyStrip_trialLine t htne htds, pyStrip_paramsLine ps,
    pyLowerStartsWith_trial_render, findTrialNum_render t htne htds,
    not_params_trialLine, not_trial_paramsLine,
    pyLowerStartsWith_params_render, paramsLine_split ps hkP,
    if_true, if_false, Bool.false_eq_true]

/-- A successful nonempty read at attempt 1 short-circuits the retry loop:
the conversion result comes from line processing alone. -/
lemma txt_to_json_first_read (reads : ℕ → ReadResult) (lines : List (List Char))
    (hread : reads 1 = ReadResult.content lines) (hne : lines ≠ []) :
    txt_to_json reads = ⟨txt_to_json_core lines, 1, 0⟩ := by
  have hempty : lines.isEmpty = false := by
    cases lines with
    | nil => exact absurd rfl hne
    | cons a l => rfl
  show txtToJsonLoop reads MAX_ATTEMPTS 0 0 = _
  rw [show MAX_ATTEMPTS = 4 + 1 from rfl]
  simp only [txtToJsonLoop, Nat.zero_add, hread, hempty, Bool.false_eq_true,
    if_false]

lemma goodKeyChar_not_digit {c : Char} (h : goodKeyChar c = true) :
    c.isDigit = false := by
  have h' : c ∈ ['a', 'b', 'c', 'd', 'e', 'f', 'g', 'h', 'i', 'j', 'k', 'l',
      'm', 'n', 'o', 'p', 'q', 'r', 's', 't', 'u', 'v', 'w', 'x', 'y', 'z',
      '_'] := by
    simpa [goodKeyChar] using h
  fin_cases h' <;> decide

lemma goodKeyChar_ne_quote {c : Char} (h : goodKeyChar c = true) : c ≠ '\'' :=
  fun he => absurd (he ▸ h) (by decide)

lemma goodKeyChar_ne_P {c : Char} (h : goodKeyChar c = true) : c ≠ 'P' :=
  fun he => absurd (he ▸ h) (by decide)

lemma dropAfterFirst_eq_none (sep : List Char) :
    ∀ l, containsSeq sep l = false → dropAfterFirst sep l = none := by
  intro l
  induction l with
  | nil =>
    intro h
    rw [containsSeq] at h
    rw [dropAfterFirst, if_neg]
    intro he
    rw [he] at h
    simp at h
  | cons c rest ih =>
    intro h
    rw [containsSeq, Bool.or_eq_false_iff] at h
    rw [dropAfterFirst, if_neg (by simp [h.1]), ih h.2]

/-- A line whose case-insensitive prefix is `parameters:` does not pass the
`trial` prefix check. -/
lemma not_trial_of_params_prefix (l : List Char)
    (h : pyLowerStartsWith paramsPrefixLower l = true) :
    pyLowerStartsWith trialPrefixLower l = false := by
  cases l with
  | nil =>
    rw [pyLowerStartsWith, paramsPrefixLower] at h
    simp at h
  | cons c rest =>
    have hc : asciiLower c = 'p' := by
      rw [pyLowerStartsWith, paramsPrefixLower_cons, List.length_cons,
        List.take_succ_cons, List.map_cons] at h
      simpa using (List.cons_eq_cons.1 (by simpa using h)).1
    rw [trialPrefixLower]
    exact pyLowerStartsWith_cons_false _ _ _ _ (by rw [hc]; decide)

/-! ## C4 — round trip of valid ProposedParams artifacts -/

/-- C4: for every valid ProposedParams artifact — a `Trial <digits>` line and
a `Parameters: {'<channel>': <int>, ...}` line whose channel identifiers are
a non-numeric prefix (lowercase letters / underscore) followed by digits,
with pairwise-distinct channels and a nonempty mapping — `txt_to_json`
returns, from the first read attempt, the entry list with each channel
stripped to its bare digit string and each integer value preserved, paired
with the trial-index digit string. -/
theorem C4_roundtrip (t : List Char) (ps : List ((List Char × List Char) × ℤ))
    (htne : t ≠ []) (htds : ∀ c ∈ t, c.isDigit = true)
    (hpsne : ps ≠ [])
    (hkey : ∀ e ∈ ps, (∀ c ∈ e.1.1, goodKeyChar c = true) ∧ e.1.2 ≠ [] ∧
      (∀ c ∈ e.1.2, c.isDigit = true))
    (hnodup : (ps.map (fun e => e.1.1 ++ e.1.2)).Nodup) :
    txt_to_json (fun _ => ReadResult.content
      [renderTrialLine t,
       renderParamsLine (ps.map (fun e => (e.1.1 ++ e.1.2, e.2)))]) =
      ⟨some (ps.map (fun e => ⟨e.1.2, e.2⟩), t), 1, 0⟩ := by
  set flat := ps.map (fun e => (e.1.1 ++ e.1.2, e.2)) with hflat
  have hkeymem : ∀ kv ∈ flat, ∀ c ∈ kv.1,
      goodKeyChar c = true ∨ c.isDigit = true := by
    intro kv hkv c hc
    rw [hflat] at hkv
    rcases List.mem_map.1 hkv with ⟨e, he, rfl⟩
    rcases List.mem_append.1 hc with h1 | h2
    · exact Or.inl ((hkey e he).1 c h1)
    · exact Or.inr ((hkey e he).2.2 c h2)
  have hkP : ∀ kv ∈ flat, 'P' ∉ kv.1 := by
    intro kv hkv hc
    rcases hkeymem kv hkv 'P' hc with h | h
    · exact absurd h (by decide)
    · exact absurd h (by decide)
  have hkQ : ∀ kv ∈ flat, '\'' ∉ kv.1 := by
    intro kv hkv hc
    rcases hkeymem kv hkv '\'' hc with h | h
    · exact absurd h (by decide)
    · exact absurd h (by decide)
  have hmapfst : flat.map Prod.fst = ps.map (fun e => e.1.1 ++ e.1.2) := by
    rw [hflat, List.map_map]
    rfl
  rw [txt_to_json_first_read _ _ rfl (by simp), txt_to_json_core,
    processLines_render t flat htne htds hkP, parsePyDict_render flat hkQ,
    pyDictOfList_eq_self flat (by rw [hmapfst]; exact hnodup)]
  simp only []
  rw [if_neg (by rw [hflat]; simpa using hpsne), hflat,
    convertParams_of_split ps (fun e he =>
      ⟨fun c hc => goodKeyChar_not_digit ((hkey e he).1 c hc),
       (hkey e he).2.1, (hkey e he).2.2⟩)]
  rfl

/-- Witness for C4 at the spec's concrete scenario:
`"Trial 3\nParameters: {'led_1': 100, 'led_2': 50}"` converts to channels
`"1"` and `"2"` with values `100` and `50` and trial index `"3"`. -/
theorem C4_roundtrip_witness :
    txt_to_json (fun _ => ReadResult.content
      [renderTrialLine ['3'],
       renderParamsLine [(['l', 'e', 'd', '_'] ++ ['1'], 100), (['l', 'e', 'd', '_'] ++ ['2'], 50)]]) =
      ⟨some ([⟨['1'], 100⟩, ⟨['2'], 50⟩], ['3']), 1, 0⟩ := by
  have h := C4_roundtrip ['3']
    [((['l', 'e', 'd', '_'], ['1']), 100), ((['l', 'e', 'd', '_'], ['2']), 50)]
    (by decide) (by decide) (by decide) (by decide) (by decide)
  simpa using h

/-! ## C9 — casing of the parameters line -/

/-- C9, counterexample: the line
`"parameters: Parameters: {'led_1': 1}"` has a case-insensitive
`parameters:` prefix that is *not* written exactly as `Parameters:`, yet the
case-sensitive split finds the separator later in the line, the payload
evaluates, and the conversion *succeeds* — refuting the claim that every
such line makes the conversion return `(None, None)`. -/
theorem C9_counterexample :
    pyLowerStartsWith paramsPrefixLower
      (pyStrip ['p', 'a', 'r', 'a', 'm', 'e', 't', 'e', 'r', 's', ':', ' ', 'P', 'a', 'r', 'a', 'm', 'e', 't', 'e', 'r', 's', ':', ' ', '\x7b', '\'', 'l', 'e', 'd', '_', '1', '\'', ':', ' ', '1', '\x7d']) = true ∧
    (pyStrip ['p', 'a', 'r', 'a', 'm', 'e', 't', 'e', 'r', 's', ':', ' ', 'P', 'a', 'r', 'a', 'm', 'e', 't', 'e', 'r', 's', ':', ' ', '\x7b', '\'', 'l', 'e', 'd', '_', '1', '\'', ':', ' ', '1', '\x7d']).take 11 ≠ paramsPrefixExact ∧
    (txt_to_json (fun _ => ReadResult.content
      [renderTrialLine ['7'], ['p', 'a', 'r', 'a', 'm', 'e', 't', 'e', 'r', 's', ':', ' ', 'P', 'a', 'r', 'a', 'm', 'e', 't', 'e', 'r', 's', ':', ' ', '\x7b', '\'', 'l', 'e', 'd', '_', '1', '\'', ':', ' ', '1', '\x7d']])).value =
      some ([⟨['1'], 1⟩], ['7']) := by
  decide

/-- C9, amended: a line whose case-insensitive prefix is `parameters:` but
which does not contain the exact substring `Parameters:` *anywhere* (for
example the all-lowercase `parameters: {...}`) yields no payload from the
case-sensitive split, so a file whose only parameters line is of that form
converts to `(None, None)` despite passing the prefix check. -/
theorem C9_casing_fails (t line : List Char)
    (htne : t ≠ []) (htds : ∀ c ∈ t, c.isDigit = true)
    (hpre : pyLowerStartsWith paramsPrefixLower (pyStrip line) = true)
    (hnoexact : containsSeq paramsPrefixExact (pyStrip line) = false) :
    txt_to_json (fun _ => ReadResult.content [renderTrialLine t, line]) =
      ⟨none, 1, 0⟩ := by
  rw [txt_to_json_first_read _ _ rfl (by simp), txt_to_json_core]
  have hsplit : pySplitGet1 paramsPrefixExact (pyStrip line) = none := by
    rw [pySplitGet1, dropAfterFirst_eq_none _ _ hnoexact]
    rfl
  have htr : pyLowerStartsWith trialPrefixLower (pyStrip line) = false :=
    not_trial_of_params_prefix _ hpre
  rw [processLines, List.foldl_cons, List.foldl_cons, List.foldl_nil]
  simp only [pyStrip_trialLine t htne htds, pyLowerStartsWith_trial_render,
    findTrialNum_render t htne htds, not_params_trialLine, htr, hpre, hsplit,
    if_true, if_false, Bool.false_eq_true]

/-- Witness for C9's amended theorem: a file whose only parameters line is
the all-lowercase `"parameters: {'led_1': 100}"` converts to `(None, None)`
at the first attempt. -/
theorem C9_casing_fails_witness :
    txt_to_json (fun _ => ReadResult.content
      [renderTrialLine ['7'], ['p', 'a', 'r', 'a', 'm', 'e', 't', 'e', 'r', 's', ':', ' ', '\x7b', '\'', 'l', 'e', 'd', '_', '1', '\'', ':', ' ', '1', '0', '0', '\x7d']]) = ⟨none, 1, 0⟩ :=
  C9_casing_fails ['7'] ['p', 'a', 'r', 'a', 'm', 'e', 't', 'e', 'r', 's', ':', ' ', '\x7b', '\'', 'l', 'e', 'd', '_', '1', '\'', ':', ' ', '1', '0', '0', '\x7d']
    (by decide) (by decide) (by decide) (by decide)

end AxSpec
